/-
  Verification development for the football-watcher repository.

  The quantitative core of the repository lives in
    src/fav_edges.py      (odds conversions, fair-value models, favorites + coin-flip selection)
    src/ftd_model.py      (first-TD expected value, stake labels, candidate selection)
    src/td_rules.py       (American-odds string parsing)
    src/scrape_props.py   (American-odds string parsing, implied probability)

  Python floats are modelled by ℚ wherever the code only performs field
  arithmetic and comparisons, and by ℝ where the code calls math.erf / math.exp.
  Python strings are modelled by List Char.  A Python function that can raise an
  exception is modelled with an Option result (none = the exception propagates).
-/
import Mathlib

namespace FootballWatcher

/-! ## Odds conversions (src/fav_edges.py, lines 36-40) -/

/-- `prob_from_american` of src/fav_edges.py:
`100/(a+100) if a>0 else (-a)/((-a)+100)`. -/
def prob_from_american (a : ℤ) : ℚ :=
  if a > 0 then 100 / ((a : ℚ) + 100) else (-a : ℚ) / ((-a : ℚ) + 100)

/-- Python 3 `round` to an integer: round half to even (banker's rounding). -/
def pyround (q : ℚ) : ℤ :=
  let f : ℤ := ⌊q⌋
  let r : ℚ := q - (f : ℚ)
  if r < 1/2 then f
  else if 1/2 < r then f + 1
  else if f % 2 = 0 then f else f + 1

/-- `american_from_prob` of src/fav_edges.py:
clamp `p` to `[1e-6, 0.999999]`, then
`int(round(100*(p/(1-p)))) if p>=0.5 else int(round(-100*((1-p)/p)))`. -/
def american_from_prob (p : ℚ) : ℤ :=
  let q := max (1/1000000) (min (999999/1000000) p)
  if q ≥ 1/2 then pyround (100 * (q / (1 - q))) else pyround (-100 * ((1 - q) / q))

/-! ## First-TD model (src/ftd_config.py and src/ftd_model.py) -/

def EV_MIN_HALF : ℚ := 12/100
def EV_MIN_FULL : ℚ := 20/100
def MP_MIN_HALF : ℚ := 10/100
def MP_MIN_FULL : ℚ := 20/100
def EDGE_MIN : ℚ := 1/100
def PRICE_MIN : ℚ := 9
def LABEL_FULL : String := "FULL STAKE"
def LABEL_HALF : String := "HALF STAKE"
def INCLUDE_BACKUP_IF_CLOSE : Bool := true
def BACKUP_MP_DIFF_MAX : ℚ := 15/1000

/-- An input row of `select_ftd_candidates`: `{name, team, mp, decimal_odds}`. -/
structure Player where
  name : String
  team : String
  mp : ℚ
  decimal_odds : ℚ
deriving DecidableEq, Repr

/-- A scored row appended to `best` in `select_ftd_candidates`:
`{**p, "ip": ip, "edge": edge, "ev": ev, "label": label}`. -/
structure Scored where
  name : String
  team : String
  mp : ℚ
  decimal_odds : ℚ
  ip : ℚ
  edge : ℚ
  ev : ℚ
  label : String
deriving DecidableEq, Repr

/-- `implied_probability_from_decimal` of src/ftd_model.py: `1.0 / decimal_odds`.
Python raises `ZeroDivisionError` when `decimal_odds == 0`, modelled by `none`. -/
def implied_probability_from_decimal (decimal_odds : ℚ) : Option ℚ :=
  if decimal_odds = 0 then none else some (1 / decimal_odds)

/-- `expected_value` of src/ftd_model.py: `(mp * (decimal_odds - 1)) - (1 - mp)`. -/
def expected_value (mp decimal_odds : ℚ) : ℚ :=
  (mp * (decimal_odds - 1)) - (1 - mp)

/-- `stake_label` of src/ftd_model.py: FULL if `ev >= EV_MIN_FULL and mp >= MP_MIN_FULL`,
else HALF if `ev >= EV_MIN_HALF and mp >= MP_MIN_HALF`, else `None`. -/
def stake_label (mp ev : ℚ) : Option String :=
  if ev ≥ EV_MIN_FULL ∧ mp ≥ MP_MIN_FULL then some LABEL_FULL
  else if ev ≥ EV_MIN_HALF ∧ mp ≥ MP_MIN_HALF then some LABEL_HALF
  else none

/-- One iteration of the scoring loop of `select_ftd_candidates`.
Outer `none` = `ZeroDivisionError` propagates; inner `none` = the row is
filtered out (label is `None`, or edge / price below the minimum). -/
def score_one (p : Player) : Option (Option Scored) :=
  match implied_probability_from_decimal p.decimal_odds with
  | none => none
  | some ip =>
    let edge := p.mp - ip
    let ev := expected_value p.mp p.decimal_odds
    match stake_label p.mp ev with
    | some label =>
        if edge ≥ EDGE_MIN ∧ p.decimal_odds ≥ PRICE_MIN then
          some (some ⟨p.name, p.team, p.mp, p.decimal_odds, ip, edge, ev, label⟩)
        else some none
    | none => some none

/-- The scoring loop of `select_ftd_candidates`: build the `best` list,
aborting (exception) as soon as one row raises. -/
def build_best : List Player → Option (List Scored)
  | [] => some []
  | p :: rest =>
    match score_one p with
    | none => none
    | some o => (build_best rest).map (fun l => o.toList ++ l)

/-- The survivors of the scoring loop on the exception-free path. -/
def survivors (players : List Player) : List Scored :=
  players.filterMap (fun p => (score_one p).bind id)

/-- Stable insertion (descending by `ev`): an element passes over strictly
larger keys and stops before the first `ev` less than or equal to its own, so
elements with equal `ev` keep their relative order. -/
def insertByEvDesc (x : Scored) : List Scored → List Scored
  | [] => [x]
  | y :: ys => if y.ev > x.ev then y :: insertByEvDesc x ys else x :: y :: ys

/-- `best.sort(key=lambda x: x["ev"], reverse=True)` of src/ftd_model.py:
the stable sort by `ev` descending. -/
def sortByEvDesc : List Scored → List Scored
  | [] => []
  | x :: xs => insertByEvDesc x (sortByEvDesc xs)

/-- The tail of `select_ftd_candidates` applied to the sorted `best` list:
`primary = best[0]`, `backup = best[1]` only when
`INCLUDE_BACKUP_IF_CLOSE and abs(best[1]["mp"] - primary["mp"]) <= BACKUP_MP_DIFF_MAX`. -/
def select_from_sorted : List Scored → Option Scored × Option Scored
  | [] => (none, none)
  | primary :: rest =>
    (some primary,
      match rest with
      | [] => none
      | second :: _ =>
        if INCLUDE_BACKUP_IF_CLOSE = true ∧ |second.mp - primary.mp| ≤ BACKUP_MP_DIFF_MAX
        then some second else none)

/-- `select_ftd_candidates` of src/ftd_model.py.  Returns `none` when a row's
`decimal_odds` is zero (`ZeroDivisionError`), otherwise `some (primary, backup)`. -/
def select_ftd_candidates (players : List Player) : Option (Option Scored × Option Scored) :=
  (build_best players).map (fun best => select_from_sorted (sortByEvDesc best))

/-! ## Fair-value models (src/fav_edges.py, lines 46-71)

The code calls `math.erf`; Mathlib 4.14 has no error function, so it is
defined here by its Gaussian integral.  The estimators are therefore
noncomputable real functions; everything else in the file stays computable. -/

/-- The Gauss error function `erf x = (2/√π) ∫_0^x e^(-t²) dt` (Python `math.erf`). -/
noncomputable def erf (x : ℝ) : ℝ :=
  (2 / Real.sqrt Real.pi) * ∫ t in (0:ℝ)..x, Real.exp (-t ^ 2)

/-- `fair_win_prob_from_spread` of src/fav_edges.py:
`0.5*(1+math.erf((spread_points/13.86)/math.sqrt(2)))`, with `except: return 0.0`.
For a real spread the body cannot raise; `none` models a missing (`None`)
spread, whose `TypeError` the bare `except` turns into `0.0`. -/
noncomputable def fair_win_prob_from_spread (spread_points : Option ℝ) : ℝ :=
  match spread_points with
  | none => 0
  | some s => 0.5 * (1 + erf ((s / 13.86) / Real.sqrt 2))

/-- `fair_qb_1plus_from_team_total` of src/fav_edges.py:
`lam_td = max(0.0, team_total_pts/7.0); lam_pass = lam_td * pass_td_share;
return 1 - math.exp(-lam_pass)`. -/
noncomputable def fair_qb_1plus_from_team_total (team_total_pts pass_td_share : ℝ) : ℝ :=
  let lam_td := max 0 (team_total_pts / 7)
  let lam_pass := lam_td * pass_td_share
  1 - Real.exp (-lam_pass)

/-- `est_team_totals` of src/fav_edges.py:
`fav = total_pts/2 + spread_pts/2; dog = total_pts - fav`. -/
def est_team_totals (total_pts spread_pts : ℚ) : ℚ × ℚ :=
  (total_pts / 2 + spread_pts / 2, total_pts - (total_pts / 2 + spread_pts / 2))

/-- `fair_rec_over_prob` of src/fav_edges.py.  `total_pts` is accepted but
unused, exactly as in the source.  A `None` spread raises `TypeError` at the
comparison `spread_pts < -6` (modelled by `none`); the function has no
exception handler. -/
noncomputable def fair_rec_over_prob (total_pts spread_pts : Option ℝ) (line : ℝ) :
    Option ℝ :=
  match spread_pts with
  | none => none
  | some sp =>
    let plays : ℝ := 60
    let pass_rate : ℝ := 0.55 + (if sp < -6 then 0.06 else 0) + (if sp > 6 then 0.06 else 0)
    let dropbacks := plays * pass_rate
    let targets := dropbacks * 0.9 * 0.20
    let recs_mean := targets * 0.66
    let mu := recs_mean
    let sigma : ℝ := 1.2
    let z := (line + 0.5 - mu) / (sigma + 1e-6)
    some (1 - 0.5 * (1 + erf (z / Real.sqrt 2)))

/-! ## Favorites + coin-flip selection (src/fav_edges.py, lines 99-163, 171-192)

In `pick_favorites` / `pick_coinflip` every candidate of one page shares the
same fair probability `p_true` (it is recomputed in the loop from the same
page's spread/total each time).  The slot logic is embedded over that shared
`p_true : ℚ` and the list of parsed American odds of the slot's buttons. -/

/-- The running `best` update of the slot loops: for each odds value `a`
compute `p_book = prob_from_american a`, `edge = (p_true - p_book) * 100`,
and keep the first candidate of strictly maximal edge
(`if (best is None) or edge > best[3]`). -/
def bestByEdge (p_true : ℚ) : List ℤ → Option (ℤ × ℚ) → Option (ℤ × ℚ)
  | [], best => best
  | a :: rest, none =>
      bestByEdge p_true rest (some (a, (p_true - prob_from_american a) * 100))
  | a :: rest, some (b, eb) =>
      if (p_true - prob_from_american a) * 100 > eb then
        bestByEdge p_true rest (some (a, (p_true - prob_from_american a) * 100))
      else bestByEdge p_true rest (some (b, eb))

/-- A favorite-style slot of `pick_favorites`: take the highest-edge candidate
over the whole list, then keep it only if
`prob_from_american best >= 0.75 and best_edge >= 2.5`. -/
def slot_pick (p_true : ℚ) (odds : List ℤ) : Option (ℤ × ℚ) :=
  match bestByEdge p_true odds none with
  | none => none
  | some (a, e) =>
      if prob_from_american a ≥ 3/4 ∧ e ≥ 5/2 then some (a, e) else none

/-- The moneyline slot of `pick_favorites`: rows with `a >= 0` are skipped
(`if a is None or a >= 0: continue`) before the best-edge scan. -/
def pick_ml (p_true : ℚ) (odds : List ℤ) : Option (ℤ × ℚ) :=
  slot_pick p_true (odds.filter (fun a => decide (a < 0)))

/-- `pick_favorites` of src/fav_edges.py: the moneyline slot then the
QB-1+-pass-TD slot, `return picked[:2]`. -/
def pick_favorites (ml_p_true : ℚ) (ml_odds : List ℤ) (qb_p_true : ℚ) (qb_odds : List ℤ) :
    List (ℤ × ℚ) :=
  ((pick_ml ml_p_true ml_odds).toList ++ (slot_pick qb_p_true qb_odds).toList).take 2

/-- The reporting decision of `process_event` (src/fav_edges.py line 183):
`if len(favs) < 2 or coin is None: return`, else report the two favorites and
the coin-flip pick. -/
def process_event_output (favs : List (ℤ × ℚ)) (coin : Option (ℤ × ℚ)) :
    Option (List (ℤ × ℚ)) :=
  if favs.length < 2 ∨ coin = none then none
  else some (favs.take 2 ++ coin.toList)

/-! ## Concrete data used by counterexamples and witnesses -/

/-- A FULL-stake survivor: ip = 1/10, edge = 1/10, ev = 1. -/
def pTieA : Player := ⟨"EV Tie A", "T1", 1/5, 10⟩

/-- A HALF-stake survivor with the same ev = 1 as `pTieA` but smaller mp. -/
def pTieB : Player := ⟨"EV Tie B", "T2", 1/10, 20⟩

/-- A HALF-stake survivor with ev = 9/10 and mp within 0.015 of `pTieA`'s. -/
def pClose : Player := ⟨"Close B", "T3", 19/100, 10⟩

/-- The scored row `select_ftd_candidates` produces from `pTieA`. -/
def sTieA : Scored := ⟨"EV Tie A", "T1", 1/5, 10, 1/10, 1/10, 1, "FULL STAKE"⟩

/-! ## American-odds string parsing (src/td_rules.py lines 26-39 and
src/scrape_props.py lines 46-56)

Python strings are modelled as `List Char`.  `decimalString` is the standard
decimal representation `str(a)` of an integer, defined here because the
parsers must be evaluated on it. -/

/-- The decimal digit character of `n` (meaningful for `n < 10`). -/
def digitChar : ℕ → Char
  | 0 => '0' | 1 => '1' | 2 => '2' | 3 => '3' | 4 => '4'
  | 5 => '5' | 6 => '6' | 7 => '7' | 8 => '8' | _ => '9'

/-- The numeric value of a digit character. -/
def digitVal (c : Char) : ℕ := c.toNat - 48

/-- Big-endian decimal digits of a natural number (`str(n)` for `n : ℕ`). -/
def natDigits (n : ℕ) : List Char :=
  if h : n < 10 then [digitChar n]
  else natDigits (n / 10) ++ [digitChar (n % 10)]
termination_by n
decreasing_by
  exact Nat.div_lt_self (by omega) (by norm_num)

/-- The value encoded by a digit string (how Python's `int` folds digits). -/
def natFromDigits (l : List Char) : ℕ :=
  l.foldl (fun acc c => acc * 10 + digitVal c) 0

/-- `str(a)` for an integer: a minus sign followed by the digits when
negative, the digits alone otherwise. -/
def decimalString (a : ℤ) : List Char :=
  if a < 0 then '-' :: natDigits a.natAbs else natDigits a.natAbs

/-- Python `int(s)` on an unsigned digit string: succeeds iff `s` is
nonempty and all digits. -/
def pyNat? (l : List Char) : Option ℕ :=
  if l ≠ [] ∧ l.all Char.isDigit = true then some (natFromDigits l) else none

/-- Python `int(s)` on a possibly signed decimal string. -/
def pyInt? (l : List Char) : Option ℤ :=
  match l with
  | [] => none
  | c :: rest =>
    if c = '-' then (pyNat? rest).map (fun n => -(n : ℤ))
    else if c = '+' then (pyNat? rest).map (fun n => (n : ℤ))
    else (pyNat? (c :: rest)).map (fun n => (n : ℤ))

/-- The whitespace characters relevant to Python's `str.strip()` here. -/
def isPyWhitespace (c : Char) : Bool :=
  c = ' ' || c = '\t' || c = '\n' || c = '\r'

/-- Python `s.strip()`: drop whitespace from both ends. -/
def trimChars (l : List Char) : List Char :=
  ((l.dropWhile isPyWhitespace).reverse.dropWhile isPyWhitespace).reverse

/-- `american_to_prob` of src/td_rules.py: `None` for an empty input, `0.5`
for a blank or `"EVEN"` string, then Python `int(s)` (with the
`s.replace("+","")` retry for signed strings) and
`abs(o)/(abs(o)+100)` for negative odds, `100/(o+100)` otherwise. -/
def american_to_prob (odds_str : List Char) : Option ℚ :=
  if odds_str = [] then none
  else
    let s := trimChars odds_str
    if s = [] ∨ s = ['E', 'V', 'E', 'N'] then some (1/2)
    else
      match pyInt? s with
      | some o => some (if o < 0 then (-o : ℚ) / ((-o : ℚ) + 100) else 100 / ((o : ℚ) + 100))
      | none =>
        if s.head? = some '+' ∨ s.head? = some '-' then
          match pyInt? (s.filter (fun c => decide (c ≠ '+'))) with
          | some o =>
              some (if o < 0 then (-o : ℚ) / ((-o : ℚ) + 100) else 100 / ((o : ℚ) + 100))
          | none => none
        else none

/-- Whether a character list starts with a digit (used by the regex model). -/
def headIsDigit : List Char → Bool
  | [] => false
  | c :: _ => c.isDigit

/-- The leftmost match of the regex `([+\x2d]?\d+)` (`re.search` in
`american_to_implied`): at each position, a digit starts a maximal digit run,
a sign immediately followed by a digit starts a signed run, anything else is
skipped. -/
def scanInt : List Char → Option ℤ
  | [] => none
  | c :: cs =>
    if c.isDigit = true then
      some ((natFromDigits ((c :: cs).takeWhile Char.isDigit) : ℕ) : ℤ)
    else if (c = '-' ∨ c = '+') ∧ headIsDigit cs = true then
      some (if c = '-' then -((natFromDigits (cs.takeWhile Char.isDigit) : ℕ) : ℤ)
            else ((natFromDigits (cs.takeWhile Char.isDigit) : ℕ) : ℤ))
    else scanInt cs

/-- `american_to_implied` of src/scrape_props.py: remove spaces, find the
first signed integer with the regex, return `None` for no match or zero odds,
else `100/(n+100)` for positive and `(-n)/((-n)+100)` for negative odds. -/
def american_to_implied (odds_text : List Char) : Option ℚ :=
  match scanInt (odds_text.filter (fun c => decide (c ≠ ' '))) with
  | none => none
  | some n =>
    if n = 0 then none
    else if n > 0 then some (100 / ((n : ℚ) + 100))
    else some ((-n : ℚ) / ((-n : ℚ) + 100))

/-! # Helper lemmas -/

theorem mem_insertByEvDesc {x y : Scored} :
    ∀ {l : List Scored}, y ∈ insertByEvDesc x l ↔ y = x ∨ y ∈ l
  | [] => by simp [insertByEvDesc]
  | z :: zs => by
    unfold insertByEvDesc
    split
    · simp [mem_insertByEvDesc (l := zs)]
      tauto
    · simp

theorem mem_sortByEvDesc {y : Scored} :
    ∀ {l : List Scored}, y ∈ sortByEvDesc l ↔ y ∈ l
  | [] => by simp [sortByEvDesc]
  | z :: zs => by
    unfold sortByEvDesc
    rw [mem_insertByEvDesc]
    simp [mem_sortByEvDesc (l := zs)]

theorem sortByEvDesc_head_max :
    ∀ (l : List Scored) (x : Scored) (rest : List Scored),
      sortByEvDesc l = x :: rest → ∀ y ∈ l, y.ev ≤ x.ev
  | [], x, rest, h => by simp [sortByEvDesc] at h
  | z :: zs, x, rest, h => by
    intro y hy
    unfold sortByEvDesc at h
    cases hs : sortByEvDesc zs with
    | nil =>
      rw [hs] at h
      unfold insertByEvDesc at h
      obtain ⟨rfl, -⟩ := List.cons.inj h
      rcases List.mem_cons.mp hy with rfl | hy'
      · exact le_refl _
      · have : y ∈ sortByEvDesc zs := mem_sortByEvDesc.mpr hy'
        rw [hs] at this
        simp at this
    | cons w ws =>
      rw [hs] at h
      have ihw : ∀ u ∈ zs, u.ev ≤ w.ev := sortByEvDesc_head_max zs w ws hs
      unfold insertByEvDesc at h
      by_cases hc : w.ev > z.ev
      · rw [if_pos hc] at h
        obtain ⟨rfl, -⟩ := List.cons.inj h
        rcases List.mem_cons.mp hy with rfl | hy'
        · exact le_of_lt hc
        · exact ihw y hy'
      · rw [if_neg hc] at h
        obtain ⟨rfl, -⟩ := List.cons.inj h
        rcases List.mem_cons.mp hy with rfl | hy'
        · exact le_refl _
        · exact le_trans (ihw y hy') (not_lt.mp hc)

theorem score_one_ne_none (p : Player) (h : p.decimal_odds ≠ 0) :
    score_one p ≠ none := by
  unfold score_one implied_probability_from_decimal
  rw [if_neg h]
  cases hl : stake_label p.mp (expected_value p.mp p.decimal_odds) with
  | none => simp [hl]
  | some label =>
    simp only [hl]
    split <;> simp

theorem survivors_cons (p : Player) (rest : List Player) (o : Option Scored)
    (ho : score_one p = some o) :
    survivors (p :: rest) = o.toList ++ survivors rest := by
  unfold survivors
  cases o with
  | none => simp [List.filterMap_cons, ho]
  | some s => simp [List.filterMap_cons, ho]

theorem build_best_eq (players : List Player)
    (h : ∀ p ∈ players, p.decimal_odds ≠ 0) :
    build_best players = some (survivors players) := by
  induction players with
  | nil => rfl
  | cons p rest ih =>
    have hp : p.decimal_odds ≠ 0 := h p (List.mem_cons_self p rest)
    have hrest := ih (fun q hq => h q (List.mem_cons_of_mem p hq))
    cases ho : score_one p with
    | none => exact absurd ho (score_one_ne_none p hp)
    | some o =>
      show (match score_one p with
            | none => none
            | some o => (build_best rest).map (fun l => o.toList ++ l)) =
          some (survivors (p :: rest))
      rw [ho, hrest]
      simp [survivors_cons p rest o ho]

theorem build_best_survivors :
    ∀ (players : List Player) (best : List Scored),
      build_best players = some best → best = survivors players := by
  intro players
  induction players with
  | nil =>
    intro best h
    simp [build_best] at h
    simp [survivors, ← h]
  | cons p rest ih =>
    intro best h
    unfold build_best at h
    cases ho : score_one p with
    | none => rw [ho] at h; exact absurd h (by simp)
    | some o =>
      rw [ho] at h
      cases hb : build_best rest with
      | none => rw [hb] at h; exact absurd h (by simp)
      | some l =>
        rw [hb] at h
        simp at h
        have hl := ih l hb
        rw [survivors_cons p rest o ho, ← hl, ← h]

theorem select_from_sorted_pair (primary s : Scored) (t : List Scored) :
    select_from_sorted (primary :: s :: t) =
      (some primary,
        if INCLUDE_BACKUP_IF_CLOSE = true ∧ |s.mp - primary.mp| ≤ BACKUP_MP_DIFF_MAX
        then some s else none) := rfl

theorem bestByEdge_spec (p_true : ℚ) :
    ∀ (l : List ℤ) (acc : Option (ℤ × ℚ)) (a : ℤ) (e : ℚ),
      bestByEdge p_true l acc = some (a, e) →
      (acc = some (a, e) ∨ (a ∈ l ∧ e = (p_true - prob_from_american a) * 100)) ∧
      (∀ b ∈ l, (p_true - prob_from_american b) * 100 ≤ e) ∧
      (∀ b eb, acc = some (b, eb) → eb ≤ e) := by
  intro l
  induction l with
  | nil =>
    intro acc a e h
    simp only [bestByEdge] at h
    refine ⟨Or.inl h, by simp, ?_⟩
    intro b eb hacc
    rw [h] at hacc
    simp only [Option.some.injEq, Prod.mk.injEq] at hacc
    rw [hacc.2]
  | cons x rest ih =>
    intro acc a e h
    cases acc with
    | none =>
      simp only [bestByEdge] at h
      obtain ⟨h1, h2, h3⟩ := ih _ a e h
      refine ⟨?_, ?_, ?_⟩
      · rcases h1 with heq | ⟨hmem, hform⟩
        · simp only [Option.some.injEq, Prod.mk.injEq] at heq
          obtain ⟨rfl, rfl⟩ := heq
          exact Or.inr ⟨List.mem_cons_self _ _, rfl⟩
        · exact Or.inr ⟨List.mem_cons_of_mem _ hmem, hform⟩
      · intro b hb
        rcases List.mem_cons.mp hb with rfl | hb'
        · exact h3 b _ rfl
        · exact h2 b hb'
      · intro b eb hacc
        cases hacc
    | some pair =>
      obtain ⟨b0, eb0⟩ := pair
      simp only [bestByEdge] at h
      by_cases hc : (p_true - prob_from_american x) * 100 > eb0
      · rw [if_pos hc] at h
        obtain ⟨h1, h2, h3⟩ := ih _ a e h
        have hxe : (p_true - prob_from_american x) * 100 ≤ e := h3 x _ rfl
        refine ⟨?_, ?_, ?_⟩
        · rcases h1 with heq | ⟨hmem, hform⟩
          · simp only [Option.some.injEq, Prod.mk.injEq] at heq
            obtain ⟨rfl, rfl⟩ := heq
            exact Or.inr ⟨List.mem_cons_self _ _, rfl⟩
          · exact Or.inr ⟨List.mem_cons_of_mem _ hmem, hform⟩
        · intro b hb
          rcases List.mem_cons.mp hb with rfl | hb'
          · exact hxe
          · exact h2 b hb'
        · intro b eb hacc
          simp only [Option.some.injEq, Prod.mk.injEq] at hacc
          rw [← hacc.2]
          exact le_of_lt (lt_of_lt_of_le hc hxe)
      · rw [if_neg hc] at h
        obtain ⟨h1, h2, h3⟩ := ih _ a e h
        have hbe : eb0 ≤ e := h3 b0 eb0 rfl
        refine ⟨?_, ?_, ?_⟩
        · rcases h1 with heq | ⟨hmem, hform⟩
          · exact Or.inl heq
          · exact Or.inr ⟨List.mem_cons_of_mem _ hmem, hform⟩
        · intro b hb
          rcases List.mem_cons.mp hb with rfl | hb'
          · exact le_trans (not_lt.mp hc) hbe
          · exact h2 b hb'
        · intro b eb hacc
          simp only [Option.some.injEq, Prod.mk.injEq] at hacc
          rw [← hacc.2]
          exact hbe


/-! # Claim theorems -/

/-- C1: the claim states that `american_from_prob` returns the favorite-style
NEGATIVE integer `-round(100*p/(1-p))` when the clamped `p` is at least 0.5.
The code has the signs flipped: at `p = 0.8` it returns `+400`
(`int(round(100*(p/(1-p))))`, a positive value), where the claim requires
`-400`. -/
theorem C1_sign_flip_eval : american_from_prob (4/5) = 400 := by
  norm_num [american_from_prob, pyround]

/-- C2: the claim states that the round trip
`prob_from_american (american_from_prob p)` lands within 0.01 of `p` for every
`p ∈ [0.01, 0.99]`.  Because of the sign flip in `american_from_prob`, at
`p = 0.8` the round trip yields `1/5 = 1 - p`, which is 0.6 away from `p`. -/
theorem C2_roundtrip_fails_eval :
    prob_from_american (american_from_prob (4/5)) = 1/5 ∧
    ¬(|prob_from_american (american_from_prob (4/5)) - 4/5| ≤ 1/100) := by
  constructor
  · norm_num [american_from_prob, pyround, prob_from_american]
  · rw [show prob_from_american (american_from_prob (4/5)) = 1/5 by
      norm_num [american_from_prob, pyround, prob_from_american]]
    rw [show |(1:ℚ)/5 - 4/5| = 3/5 by rw [abs_of_nonpos] <;> norm_num]
    norm_num

/-- C3 counterexample: `select_ftd_candidates` is NOT invariant under
permutation of its input.  `pTieA` and `pTieB` are both survivors with the
same expected value 1; Python's stable sort keys only on `ev`, so whichever
comes first in the input becomes the primary. -/
theorem C3_counterexample :
    select_ftd_candidates [pTieA, pTieB] ≠ select_ftd_candidates [pTieB, pTieA] := by
  norm_num [select_ftd_candidates, select_from_sorted, build_best, score_one,
    implied_probability_from_decimal, expected_value, stake_label, EV_MIN_FULL,
    MP_MIN_FULL, EV_MIN_HALF, MP_MIN_HALF, EDGE_MIN, PRICE_MIN, pTieA, pTieB,
    sortByEvDesc, insertByEvDesc, INCLUDE_BACKUP_IF_CLOSE, BACKUP_MP_DIFF_MAX,
    LABEL_FULL, LABEL_HALF]

/-- C3 amended: `select_ftd_candidates` ranks survivors by expected value
descending only (stable sort, ties broken by input order, not by fair
probability or label); the primary, when one exists, is always a survivor of
maximal expected value, and the output is a deterministic function of the
input list — but not invariant under permutations that swap EV-tied
candidates. -/
theorem C3_amended (players : List Player) (c : Scored) (b : Option Scored)
    (h : select_ftd_candidates players = some (some c, b)) :
    c ∈ survivors players ∧ ∀ d ∈ survivors players, d.ev ≤ c.ev := by
  unfold select_ftd_candidates at h
  cases hb : build_best players with
  | none => rw [hb] at h; cases h
  | some best =>
    rw [hb] at h
    simp only [Option.map_some', Option.some.injEq] at h
    have hbs := build_best_survivors players best hb
    cases hs : sortByEvDesc best with
    | nil => rw [hs] at h; cases h
    | cons x rest =>
      rw [hs] at h
      unfold select_from_sorted at h
      have hx : x = c := by
        have := congrArg Prod.fst h
        simpa using this
      subst hx
      rw [← hbs]
      constructor
      · exact mem_sortByEvDesc.mp (hs ▸ List.mem_cons_self x rest)
      · exact sortByEvDesc_head_max best x rest hs

/-- C4 counterexample: in the favorite-style slot, a candidate that meets both
floors (book probability at least 0.75 and edge at least 2.5 points) is NOT
guaranteed to produce a pick: with fair probability 0.81 and candidates at
-150 and -300, the -300 candidate meets both floors, yet the slot picks
nothing because the floor test is applied only to the overall highest-edge
candidate (-150), which fails the probability floor. -/
theorem C4_counterexample :
    pick_ml (81/100) [-150, -300] = none ∧
    (-300 : ℤ) ∈ ([-150, -300] : List ℤ) ∧ (-300 : ℤ) < 0 ∧
    prob_from_american (-300) ≥ 3/4 ∧
    ((81:ℚ)/100 - prob_from_american (-300)) * 100 ≥ 5/2 := by
  refine ⟨?_, by norm_num, by norm_num, ?_, ?_⟩
  · norm_num [pick_ml, slot_pick, bestByEdge, prob_from_american]
  · norm_num [prob_from_american]
  · norm_num [prob_from_american]

/-- C4 amended: the favorite-style slot first takes the highest-edge candidate
over ALL (negative-odds) candidates, and only then tests the two floors on
that single candidate; a pick is produced exactly when the overall highest-edge
candidate itself passes `p_book ≥ 0.75` and `edge ≥ 2.5`.  Whenever a pick is
produced it meets both floors and has maximal edge. -/
theorem C4_amended (p_true : ℚ) (odds : List ℤ) (a : ℤ) (e : ℚ)
    (h : pick_ml p_true odds = some (a, e)) :
    a ∈ odds ∧ a < 0 ∧ prob_from_american a ≥ 3/4 ∧ e ≥ 5/2 ∧
    e = (p_true - prob_from_american a) * 100 ∧
    ∀ b ∈ odds, b < 0 → (p_true - prob_from_american b) * 100 ≤ e := by
  unfold pick_ml slot_pick at h
  cases hb : bestByEdge p_true (odds.filter fun a => decide (a < 0)) none with
  | none => rw [hb] at h; cases h
  | some pair =>
    obtain ⟨a', e'⟩ := pair
    rw [hb] at h
    replace h : (if prob_from_american a' ≥ 3/4 ∧ e' ≥ 5/2
        then some (a', e') else none) = some (a, e) := h
    by_cases hc : prob_from_american a' ≥ 3/4 ∧ e' ≥ 5/2
    · rw [if_pos hc] at h
      simp only [Option.some.injEq, Prod.mk.injEq] at h
      obtain ⟨rfl, rfl⟩ := h
      obtain ⟨h1, h2, -⟩ := bestByEdge_spec p_true _ none a' e' hb
      rcases h1 with heq | ⟨hmem, hform⟩
      · cases heq
      · have ha_mem : a' ∈ odds := (List.mem_filter.mp hmem).1
        have ha_neg : a' < 0 := by
          have := (List.mem_filter.mp hmem).2
          simpa using this
        refine ⟨ha_mem, ha_neg, hc.1, hc.2, hform, ?_⟩
        intro b hbo hbneg
        exact h2 b (List.mem_filter.mpr ⟨hbo, by simpa using hbneg⟩)
    · rw [if_neg hc] at h
      cases h

/-- C5 counterexample: the claim states the probability conversions never
raise into the caller, including on zero decimal odds; but
`implied_probability_from_decimal(0)` performs `1.0/0` and raises
`ZeroDivisionError` (modelled as `none`). -/
theorem C5_counterexample : implied_probability_from_decimal 0 = none := by
  simp [implied_probability_from_decimal]

/-- C7: `expected_value(mp, d) = mp*(d-1) - (1-mp)`, and when `mp` equals the
book-implied probability obtained from `implied_probability_from_decimal`,
the expected value is exactly 0. -/
theorem C7_expected_value (mp d ip : ℚ)
    (h : implied_probability_from_decimal d = some ip) :
    expected_value mp d = mp * (d - 1) - (1 - mp) ∧ expected_value ip d = 0 := by
  unfold implied_probability_from_decimal at h
  by_cases hd : d = 0
  · rw [if_pos hd] at h; cases h
  · rw [if_neg hd] at h
    simp only [Option.some.injEq] at h
    subst h
    refine ⟨rfl, ?_⟩
    unfold expected_value
    field_simp

/-- Witness for C7 at `mp = 1/3`, `d = 2`, `ip = 1/2`. -/
theorem C7_expected_value_witness :
    implied_probability_from_decimal 2 = some (1/2) ∧
    (expected_value (1/3) 2 = (1/3) * (2 - 1) - (1 - 1/3) ∧
      expected_value (1/2) 2 = 0) := by
  refine ⟨by norm_num [implied_probability_from_decimal], ?_⟩
  exact C7_expected_value (1/3) 2 (1/2) (by norm_num [implied_probability_from_decimal])

/-- C8: under the data-model invariant that decimal odds exceed 1, the
selection never raises; if no candidate passes the three eligibility filters
(non-null stake label, edge at least EDGE_MIN, price at least PRICE_MIN —
exactly the `survivors` computation) the result is `(none, none)`, and the
backup is populated exactly when a rank-2 survivor exists whose model
probability is within BACKUP_MP_DIFF_MAX of the primary's. -/
theorem C8_empty_and_backup (players : List Player)
    (h : ∀ p ∈ players, 1 < p.decimal_odds) :
    (survivors players = [] → select_ftd_candidates players = some (none, none)) ∧
    (∀ primary rest, sortByEvDesc (survivors players) = primary :: rest →
      ((∃ second, rest.head? = some second ∧
          |second.mp - primary.mp| ≤ BACKUP_MP_DIFF_MAX) →
        select_ftd_candidates players = some (some primary, rest.head?)) ∧
      ((∀ second, rest.head? = some second →
          ¬(|second.mp - primary.mp| ≤ BACKUP_MP_DIFF_MAX)) →
        select_ftd_candidates players = some (some primary, none))) := by
  have hnz : ∀ p ∈ players, p.decimal_odds ≠ 0 :=
    fun p hp => ne_of_gt (lt_trans zero_lt_one (h p hp))
  have hbb : select_ftd_candidates players =
      some (select_from_sorted (sortByEvDesc (survivors players))) := by
    unfold select_ftd_candidates
    rw [build_best_eq players hnz]
    rfl
  constructor
  · intro hs
    rw [hbb, hs]
    rfl
  · intro primary rest hs
    rw [hbb, hs]
    constructor
    · rintro ⟨second, hh, hgap⟩
      cases rest with
      | nil => cases hh
      | cons s t =>
        simp only [List.head?_cons, Option.some.injEq] at hh
        subst hh
        rw [select_from_sorted_pair, if_pos ⟨rfl, hgap⟩]
        rfl
    · intro hno
      cases rest with
      | nil => rfl
      | cons s t =>
        have hng := hno s rfl
        rw [select_from_sorted_pair, if_neg (by rintro ⟨-, hgap⟩; exact hng hgap)]

/-- Witness for C8 on a two-candidate list whose survivors are close enough
for a backup. -/
theorem C8_empty_and_backup_witness :
    (∀ p ∈ [pTieA, pClose], 1 < p.decimal_odds) ∧
    ((survivors [pTieA, pClose] = [] →
        select_ftd_candidates [pTieA, pClose] = some (none, none)) ∧
    (∀ primary rest, sortByEvDesc (survivors [pTieA, pClose]) = primary :: rest →
      ((∃ second, rest.head? = some second ∧
          |second.mp - primary.mp| ≤ BACKUP_MP_DIFF_MAX) →
        select_ftd_candidates [pTieA, pClose] = some (some primary, rest.head?)) ∧
      ((∀ second, rest.head? = some second →
          ¬(|second.mp - primary.mp| ≤ BACKUP_MP_DIFF_MAX)) →
        select_ftd_candidates [pTieA, pClose] = some (some primary, none)))) := by
  have h : ∀ p ∈ [pTieA, pClose], 1 < p.decimal_odds := by
    intro p hp
    rcases List.mem_cons.mp hp with rfl | hp'
    · norm_num [pTieA]
    · rcases List.mem_cons.mp hp' with rfl | hp''
      · norm_num [pClose]
      · cases hp''
  exact ⟨h, C8_empty_and_backup [pTieA, pClose] h⟩

/-- C9: `process_event` reports a game only when the favorites selection
produced two picks and the coin-flip selection produced one; `pick_favorites`
returns at most two picks, so output is produced exactly with two favorites
and a coin-flip pick, and otherwise the game yields nothing. -/
theorem C9_all_or_nothing (mlp : ℚ) (ml : List ℤ) (qbp : ℚ) (qb : List ℤ)
    (coin : Option (ℤ × ℚ)) :
    ((pick_favorites mlp ml qbp qb).length < 2 ∨ coin = none →
      process_event_output (pick_favorites mlp ml qbp qb) coin = none) ∧
    (∀ out, process_event_output (pick_favorites mlp ml qbp qb) coin = some out →
      (pick_favorites mlp ml qbp qb).length = 2 ∧ coin ≠ none) := by
  constructor
  · intro hcond
    unfold process_event_output
    rw [if_pos hcond]
  · intro out hout
    unfold process_event_output at hout
    by_cases hcond : (pick_favorites mlp ml qbp qb).length < 2 ∨ coin = none
    · rw [if_pos hcond] at hout; cases hout
    · push_neg at hcond
      obtain ⟨hlen, hcoin⟩ := hcond
      have hle : (pick_favorites mlp ml qbp qb).length ≤ 2 := by
        unfold pick_favorites
        exact List.length_take_le 2 _
      exact ⟨le_antisymm hle hlen, hcoin⟩

/-- Witness for C9 on a game whose two favorite slots and coin-flip slot all
produce picks. -/
theorem C9_all_or_nothing_witness :
    (((pick_favorites (81/100) [-300] (81/100) [-300]).length < 2 ∨
        (some ((-120 : ℤ), (3 : ℚ))) = none →
      process_event_output (pick_favorites (81/100) [-300] (81/100) [-300])
        (some ((-120 : ℤ), (3 : ℚ))) = none) ∧
    (∀ out, process_event_output (pick_favorites (81/100) [-300] (81/100) [-300])
        (some ((-120 : ℤ), (3 : ℚ))) = some out →
      (pick_favorites (81/100) [-300] (81/100) [-300]).length = 2 ∧
        (some ((-120 : ℤ), (3 : ℚ))) ≠ none)) ∧
    (pick_favorites (81/100) [-300] (81/100) [-300]).length = 2 := by
  refine ⟨C9_all_or_nothing (81/100) [-300] (81/100) [-300] (some ((-120 : ℤ), (3 : ℚ))), ?_⟩
  norm_num [pick_favorites, pick_ml, slot_pick, bestByEdge, prob_from_american]


/-! # Real-analysis lemmas for the spread model -/

theorem gauss_intervalIntegrable (a b : ℝ) :
    IntervalIntegrable (fun t : ℝ => Real.exp (-t ^ 2)) MeasureTheory.volume a b :=
  Continuous.intervalIntegrable (by continuity) a b

theorem erf_zero : erf 0 = 0 := by
  unfold erf
  rw [intervalIntegral.integral_same, mul_zero]

theorem erf_lt_erf {x y : ℝ} (h : x < y) : erf x < erf y := by
  unfold erf
  have hc : (0:ℝ) < 2 / Real.sqrt Real.pi :=
    div_pos two_pos (Real.sqrt_pos.mpr Real.pi_pos)
  have hadd := intervalIntegral.integral_add_adjacent_intervals
    (gauss_intervalIntegrable 0 x) (gauss_intervalIntegrable x y)
  have hpos := intervalIntegral.intervalIntegral_pos_of_pos
    (gauss_intervalIntegrable x y) (fun t => Real.exp_pos _) h
  have hlt : (∫ t in (0:ℝ)..x, Real.exp (-t ^ 2)) <
      ∫ t in (0:ℝ)..y, Real.exp (-t ^ 2) := by linarith
  exact mul_lt_mul_of_pos_left hlt hc

theorem erf_neg (x : ℝ) : erf (-x) = -erf x := by
  unfold erf
  have h1 := intervalIntegral.integral_comp_neg (a := 0) (b := x)
    (fun t : ℝ => Real.exp (-t ^ 2))
  simp only [neg_sq, neg_zero, neg_neg] at h1
  have h2 := intervalIntegral.integral_symm (μ := MeasureTheory.volume)
    (f := fun t : ℝ => Real.exp (-t ^ 2)) 0 (-x)
  rw [h1, h2]
  ring

/-- C6: the spread model returns exactly 1/2 at spread 0, is strictly
increasing in the spread magnitude, and is symmetric under sign flip of the
spread (`fair_win_prob_from_spread (-s) = 1 - fair_win_prob_from_spread s`). -/
theorem C6_spread_model (s1 s2 s : ℝ) (h0 : 0 ≤ s1) (h12 : s1 < s2) :
    fair_win_prob_from_spread (some 0) = 1/2 ∧
    fair_win_prob_from_spread (some s1) < fair_win_prob_from_spread (some s2) ∧
    fair_win_prob_from_spread (some (-s)) = 1 - fair_win_prob_from_spread (some s) := by
  refine ⟨?_, ?_, ?_⟩
  · show 0.5 * (1 + erf ((0 / 13.86) / Real.sqrt 2)) = 1/2
    rw [zero_div, zero_div, erf_zero]
    norm_num
  · show 0.5 * (1 + erf ((s1 / 13.86) / Real.sqrt 2)) <
        0.5 * (1 + erf ((s2 / 13.86) / Real.sqrt 2))
    have h2 : (0:ℝ) < Real.sqrt 2 := Real.sqrt_pos.mpr (by norm_num)
    have h13 : (0:ℝ) < 13.86 := by norm_num
    have harg : (s1 / 13.86) / Real.sqrt 2 < (s2 / 13.86) / Real.sqrt 2 :=
      (div_lt_div_iff_of_pos_right h2).mpr ((div_lt_div_iff_of_pos_right h13).mpr h12)
    have := erf_lt_erf harg
    linarith
  · show 0.5 * (1 + erf ((-s / 13.86) / Real.sqrt 2)) =
        1 - 0.5 * (1 + erf ((s / 13.86) / Real.sqrt 2))
    have harg : (-s / 13.86) / Real.sqrt 2 = -((s / 13.86) / Real.sqrt 2) := by ring
    rw [harg, erf_neg]
    ring

/-- Witness for C6 at spreads 0 < 1 and sign flip at 2. -/
theorem C6_spread_model_witness :
    ((0:ℝ) ≤ 0) ∧ ((0:ℝ) < 1) ∧
    (fair_win_prob_from_spread (some 0) = 1/2 ∧
     fair_win_prob_from_spread (some 0) < fair_win_prob_from_spread (some 1) ∧
     fair_win_prob_from_spread (some (-2)) = 1 - fair_win_prob_from_spread (some 2)) :=
  ⟨le_refl 0, by norm_num, C6_spread_model 0 1 2 (le_refl 0) (by norm_num)⟩

/-- C5 amended: `fair_win_prob_from_spread` returns the default 0.0 (not 0.5)
for a missing spread; `fair_qb_1plus_from_team_total` returns 0 for
non-positive team totals; `fair_rec_over_prob` returns a value for every
numeric input; but `implied_probability_from_decimal` raises
`ZeroDivisionError` on zero decimal odds (returning a value for every nonzero
decimal odds) instead of returning a neutral probability. -/
theorem C5_amended (t share total s line : ℝ) (d : ℚ) (ht : t ≤ 0) (hd : d ≠ 0) :
    fair_win_prob_from_spread none = 0 ∧
    fair_qb_1plus_from_team_total t share = 0 ∧
    (fair_rec_over_prob (some total) (some s) line).isSome = true ∧
    implied_probability_from_decimal 0 = none ∧
    implied_probability_from_decimal d = some (1/d) := by
  refine ⟨rfl, ?_, rfl, by simp [implied_probability_from_decimal],
    by simp [implied_probability_from_decimal, hd]⟩
  show 1 - Real.exp (-(max 0 (t / 7) * share)) = 0
  have h7 : t / 7 ≤ 0 := by
    apply div_nonpos_of_nonpos_of_nonneg ht
    norm_num
  rw [max_eq_left h7, zero_mul, neg_zero, Real.exp_zero, sub_self]

/-- Witness for C5 amended at `t = -1`, `share = 13/20`, `total = 44`,
`s = 0`, `line = 7/2`, `d = 2`. -/
theorem C5_amended_witness :
    ((-1 : ℝ) ≤ 0) ∧ ((2:ℚ) ≠ 0) ∧
    (fair_win_prob_from_spread none = 0 ∧
     fair_qb_1plus_from_team_total (-1) (13/20) = 0 ∧
     (fair_rec_over_prob (some 44) (some 0) (7/2)).isSome = true ∧
     implied_probability_from_decimal 0 = none ∧
     implied_probability_from_decimal 2 = some (1/2)) := by
  refine ⟨by norm_num, by norm_num, ?_⟩
  have h := C5_amended (-1) (13/20) 44 0 (7/2) 2 (by norm_num) (by norm_num)
  simpa using h

/-- Witness for C3 amended on the single-candidate list `[pTieA]`. -/
theorem C3_amended_witness :
    select_ftd_candidates [pTieA] = some (some sTieA, none) ∧
    (sTieA ∈ survivors [pTieA] ∧ ∀ d ∈ survivors [pTieA], d.ev ≤ sTieA.ev) := by
  have h : select_ftd_candidates [pTieA] = some (some sTieA, none) := by
    norm_num [select_ftd_candidates, select_from_sorted, build_best, score_one,
      implied_probability_from_decimal, expected_value, stake_label, EV_MIN_FULL,
      MP_MIN_FULL, EV_MIN_HALF, MP_MIN_HALF, EDGE_MIN, PRICE_MIN, pTieA, sTieA,
      sortByEvDesc, insertByEvDesc, LABEL_FULL]
  exact ⟨h, C3_amended [pTieA] sTieA none h⟩

/-- Witness for C4 amended: with fair probability 0.81 and the single
candidate -300 the slot produces the pick (-300, 6). -/
theorem C4_amended_witness :
    pick_ml (81/100) [-300] = some (-300, 6) ∧
    ((-300 : ℤ) ∈ ([-300] : List ℤ) ∧ (-300 : ℤ) < 0 ∧
      prob_from_american (-300) ≥ 3/4 ∧ (6:ℚ) ≥ 5/2 ∧
      (6:ℚ) = ((81:ℚ)/100 - prob_from_american (-300)) * 100 ∧
      ∀ b ∈ ([-300] : List ℤ), b < 0 →
        ((81:ℚ)/100 - prob_from_american b) * 100 ≤ 6) := by
  have h : pick_ml (81/100) [-300] = some (-300, 6) := by
    norm_num [pick_ml, slot_pick, bestByEdge, prob_from_american]
  exact ⟨h, C4_amended (81/100) [-300] (-300) 6 h⟩


/-! # Decimal-string lemmas for C10 -/

theorem digitChar_spec (n : ℕ) (h : n < 10) :
    (digitChar n).isDigit = true ∧ digitVal (digitChar n) = n := by
  interval_cases n <;> exact ⟨by decide, by decide⟩

theorem natDigits_ne_nil (n : ℕ) : natDigits n ≠ [] := by
  rw [natDigits]
  split <;> simp

theorem natDigits_all_digits (n : ℕ) : ∀ c ∈ natDigits n, c.isDigit = true := by
  induction n using Nat.strong_induction_on with
  | _ n ih =>
    rw [natDigits]
    split
    · next h =>
      intro c hc
      simp only [List.mem_singleton] at hc
      subst hc
      exact (digitChar_spec n h).1
    · next h =>
      intro c hc
      rcases List.mem_append.mp hc with h1 | h2
      · exact ih (n / 10) (Nat.div_lt_self (by omega) (by norm_num)) c h1
      · simp only [List.mem_singleton] at h2
        subst h2
        exact (digitChar_spec (n % 10) (Nat.mod_lt _ (by norm_num))).1

theorem natFromDigits_append (l : List Char) (c : Char) :
    natFromDigits (l ++ [c]) = natFromDigits l * 10 + digitVal c := by
  unfold natFromDigits
  rw [List.foldl_append]
  rfl

theorem natFromDigits_natDigits (n : ℕ) : natFromDigits (natDigits n) = n := by
  induction n using Nat.strong_induction_on with
  | _ n ih =>
    rw [natDigits]
    split
    · next h =>
      show natFromDigits [digitChar n] = n
      unfold natFromDigits
      simp [(digitChar_spec n h).2]
    · next h =>
      rw [natFromDigits_append, ih (n / 10) (Nat.div_lt_self (by omega) (by norm_num)),
        (digitChar_spec (n % 10) (Nat.mod_lt _ (by norm_num))).2]
      omega

theorem isDigit_ne (c : Char) (h : c.isDigit = true) :
    c ≠ '-' ∧ c ≠ '+' ∧ c ≠ 'E' ∧ c ≠ ' ' ∧ isPyWhitespace c = false := by
  have hm : ∀ x : Char, x.isDigit = false → c ≠ x := by
    intro x hx hcx
    rw [hcx, hx] at h
    exact Bool.noConfusion h
  refine ⟨hm '-' (by decide), hm '+' (by decide), hm 'E' (by decide), hm ' ' (by decide), ?_⟩
  have h1 := hm ' ' (by decide)
  have h2 := hm '\t' (by decide)
  have h3 := hm '\n' (by decide)
  have h4 := hm '\r' (by decide)
  simp [isPyWhitespace, h1, h2, h3, h4]

theorem dropWhile_all_false (p : Char → Bool) :
    ∀ l : List Char, (∀ c ∈ l, p c = false) → l.dropWhile p = l
  | [], _ => rfl
  | c :: cs, h => by
    rw [List.dropWhile_cons, h c (List.mem_cons_self c cs)]
    simp

theorem takeWhile_all_true (p : Char → Bool) :
    ∀ l : List Char, (∀ c ∈ l, p c = true) → l.takeWhile p = l
  | [], _ => rfl
  | c :: cs, h => by
    rw [List.takeWhile_cons, h c (List.mem_cons_self c cs)]
    simp [takeWhile_all_true p cs (fun d hd => h d (List.mem_cons_of_mem c hd))]

theorem filter_all_true (p : Char → Bool) :
    ∀ l : List Char, (∀ c ∈ l, p c = true) → l.filter p = l
  | [], _ => rfl
  | c :: cs, h => by
    rw [List.filter_cons, h c (List.mem_cons_self c cs)]
    simp [filter_all_true p cs (fun d hd => h d (List.mem_cons_of_mem c hd))]

theorem trim_all (l : List Char) (h : ∀ c ∈ l, isPyWhitespace c = false) :
    trimChars l = l := by
  unfold trimChars
  rw [dropWhile_all_false _ l h,
    dropWhile_all_false _ l.reverse (fun c hc => h c (List.mem_reverse.mp hc))]
  exact List.reverse_reverse l

theorem decimalString_chars (a : ℤ) :
    ∀ c ∈ decimalString a, c = '-' ∨ c.isDigit = true := by
  unfold decimalString
  split
  · intro c hc
    rcases List.mem_cons.mp hc with rfl | hc'
    · exact Or.inl rfl
    · exact Or.inr (natDigits_all_digits a.natAbs c hc')
  · intro c hc
    exact Or.inr (natDigits_all_digits a.natAbs c hc)

theorem decimalString_no_ws (a : ℤ) :
    ∀ c ∈ decimalString a, isPyWhitespace c = false := by
  intro c hc
  rcases decimalString_chars a c hc with rfl | hd
  · decide
  · exact (isDigit_ne c hd).2.2.2.2

theorem decimalString_ne_nil (a : ℤ) : decimalString a ≠ [] := by
  unfold decimalString
  split
  · simp
  · exact natDigits_ne_nil a.natAbs

theorem decimalString_ne_even (a : ℤ) : decimalString a ≠ ['E', 'V', 'E', 'N'] := by
  obtain ⟨c, rest, hcr⟩ : ∃ c rest, decimalString a = c :: rest := by
    cases h : decimalString a with
    | nil => exact absurd h (decimalString_ne_nil a)
    | cons c rest => exact ⟨c, rest, rfl⟩
  rw [hcr]
  intro he
  obtain ⟨h1, -⟩ := List.cons.inj he
  have hch := decimalString_chars a c (by rw [hcr]; exact List.mem_cons_self c rest)
  rcases hch with rfl | hd
  · exact absurd h1 (by decide)
  · exact absurd h1 (isDigit_ne c hd).2.2.1

theorem pyNat_natDigits (n : ℕ) : pyNat? (natDigits n) = some n := by
  unfold pyNat?
  rw [if_pos ⟨natDigits_ne_nil n, List.all_eq_true.mpr (natDigits_all_digits n)⟩,
    natFromDigits_natDigits]

theorem pyInt_cons (c : Char) (rest : List Char) :
    pyInt? (c :: rest) =
      if c = '-' then (pyNat? rest).map (fun n => -(n : ℤ))
      else if c = '+' then (pyNat? rest).map (fun n => (n : ℤ))
      else (pyNat? (c :: rest)).map (fun n => (n : ℤ)) := rfl

theorem pyInt_decimalString (a : ℤ) : pyInt? (decimalString a) = some a := by
  unfold decimalString
  by_cases ha : a < 0
  · rw [if_pos ha, pyInt_cons, if_pos rfl, pyNat_natDigits]
    show some (-((a.natAbs : ℕ) : ℤ)) = some a
    congr 1
    omega
  · rw [if_neg ha]
    obtain ⟨c, rest, hcr⟩ : ∃ c rest, natDigits a.natAbs = c :: rest := by
      cases h : natDigits a.natAbs with
      | nil => exact absurd h (natDigits_ne_nil _)
      | cons c rest => exact ⟨c, rest, rfl⟩
    have hc : c.isDigit = true :=
      natDigits_all_digits a.natAbs c (by rw [hcr]; exact List.mem_cons_self c rest)
    rw [hcr, pyInt_cons, if_neg (isDigit_ne c hc).1, if_neg (isDigit_ne c hc).2.1,
      ← hcr, pyNat_natDigits]
    show some (((a.natAbs : ℕ) : ℤ)) = some a
    congr 1
    omega

theorem american_to_prob_decimalString (a : ℤ) :
    american_to_prob (decimalString a) =
      some (if a < 0 then (-a : ℚ) / ((-a : ℚ) + 100) else 100 / ((a : ℚ) + 100)) := by
  simp only [american_to_prob]
  rw [trim_all _ (decimalString_no_ws a),
    if_neg (decimalString_ne_nil a),
    if_neg (by
      rintro (h | h)
      · exact decimalString_ne_nil a h
      · exact decimalString_ne_even a h),
    pyInt_decimalString]

theorem scanInt_cons (c : Char) (cs : List Char) :
    scanInt (c :: cs) =
      if c.isDigit = true then
        some ((natFromDigits ((c :: cs).takeWhile Char.isDigit) : ℕ) : ℤ)
      else if (c = '-' ∨ c = '+') ∧ headIsDigit cs = true then
        some (if c = '-' then -((natFromDigits (cs.takeWhile Char.isDigit) : ℕ) : ℤ)
              else ((natFromDigits (cs.takeWhile Char.isDigit) : ℕ) : ℤ))
      else scanInt cs := rfl

theorem scanInt_digits (n : ℕ) : scanInt (natDigits n) = some ((n : ℕ) : ℤ) := by
  obtain ⟨c, rest, hcr⟩ : ∃ c rest, natDigits n = c :: rest := by
    cases h : natDigits n with
    | nil => exact absurd h (natDigits_ne_nil _)
    | cons c rest => exact ⟨c, rest, rfl⟩
  have hc : c.isDigit = true :=
    natDigits_all_digits n c (by rw [hcr]; exact List.mem_cons_self c rest)
  rw [hcr, scanInt_cons, if_pos hc, ← hcr,
    takeWhile_all_true _ _ (natDigits_all_digits n), natFromDigits_natDigits]

theorem scanInt_neg_digits (n : ℕ) : scanInt ('-' :: natDigits n) = some (-((n : ℕ) : ℤ)) := by
  have hh : headIsDigit (natDigits n) = true := by
    obtain ⟨c, rest, hcr⟩ : ∃ c rest, natDigits n = c :: rest := by
      cases h : natDigits n with
      | nil => exact absurd h (natDigits_ne_nil _)
      | cons c rest => exact ⟨c, rest, rfl⟩
    have hc : c.isDigit = true :=
      natDigits_all_digits n c (by rw [hcr]; exact List.mem_cons_self c rest)
    rw [hcr]
    exact hc
  rw [scanInt_cons, if_neg (by decide), if_pos ⟨Or.inl rfl, hh⟩, if_pos rfl,
    takeWhile_all_true _ _ (natDigits_all_digits n), natFromDigits_natDigits]

theorem decimalString_filter_space (a : ℤ) :
    (decimalString a).filter (fun c => decide (c ≠ ' ')) = decimalString a := by
  apply filter_all_true
  intro c hc
  rcases decimalString_chars a c hc with rfl | hd
  · decide
  · exact decide_eq_true (isDigit_ne c hd).2.2.2.1

theorem american_to_implied_decimalString (a : ℤ) (ha : a ≠ 0) :
    american_to_implied (decimalString a) =
      some (if 0 < a then 100 / ((a : ℚ) + 100) else (-a : ℚ) / ((-a : ℚ) + 100)) := by
  unfold american_to_implied
  rw [decimalString_filter_space]
  by_cases hlt : a < 0
  · have hds : decimalString a = '-' :: natDigits a.natAbs := by
      unfold decimalString
      rw [if_pos hlt]
    rw [hds, scanInt_neg_digits, show -((a.natAbs : ℕ) : ℤ) = a by omega]
    show (if a = 0 then none
      else if a > 0 then some (100 / ((a : ℚ) + 100))
      else some ((-a : ℚ) / ((-a : ℚ) + 100))) = _
    rw [if_neg ha, if_neg (by omega : ¬ a > 0), if_neg (by omega : ¬ 0 < a)]
  · have hds : decimalString a = natDigits a.natAbs := by
      unfold decimalString
      rw [if_neg hlt]
    rw [hds, scanInt_digits, show ((a.natAbs : ℕ) : ℤ) = a by omega]
    show (if a = 0 then none
      else if a > 0 then some (100 / ((a : ℚ) + 100))
      else some ((-a : ℚ) / ((-a : ℚ) + 100))) = _
    rw [if_neg ha, if_pos (by omega : a > 0), if_pos (by omega : 0 < a)]

/-- C10: for every American odds integer `a` with `a ≥ 100` or `a ≤ -100`,
the three independently implemented converters agree:
`prob_from_american a`, `american_to_prob` on the decimal string of `a`
(td_rules.py), and `american_to_implied` on the decimal string of `a`
(scrape_props.py) all give `100/(a+100)` for positive `a` and
`|a|/(|a|+100)` for negative `a`. -/
theorem C10_converters_agree (a : ℤ) (h : 100 ≤ a ∨ a ≤ -100) :
    (0 < a →
      prob_from_american a = 100 / ((a : ℚ) + 100) ∧
      american_to_prob (decimalString a) = some (100 / ((a : ℚ) + 100)) ∧
      american_to_implied (decimalString a) = some (100 / ((a : ℚ) + 100))) ∧
    (a < 0 →
      prob_from_american a = (-a : ℚ) / ((-a : ℚ) + 100) ∧
      american_to_prob (decimalString a) = some ((-a : ℚ) / ((-a : ℚ) + 100)) ∧
      american_to_implied (decimalString a) = some ((-a : ℚ) / ((-a : ℚ) + 100))) := by
  constructor
  · intro hpos
    refine ⟨?_, ?_, ?_⟩
    · unfold prob_from_american
      rw [if_pos hpos]
    · rw [american_to_prob_decimalString, if_neg (by omega : ¬ a < 0)]
    · rw [american_to_implied_decimalString a (by omega), if_pos hpos]
  · intro hneg
    refine ⟨?_, ?_, ?_⟩
    · unfold prob_from_american
      rw [if_neg (by omega : ¬ a > 0)]
    · rw [american_to_prob_decimalString, if_pos hneg]
    · rw [american_to_implied_decimalString a (by omega), if_neg (by omega : ¬ 0 < a)]

/-- Witness for C10 at `a = 150` and `a = -150`. -/
theorem C10_converters_agree_witness :
    (100 ≤ (150 : ℤ) ∨ (150 : ℤ) ≤ -100) ∧
    (100 ≤ (-150 : ℤ) ∨ (-150 : ℤ) ≤ -100) ∧
    (0 < (150 : ℤ)) ∧ ((-150 : ℤ) < 0) ∧
    (prob_from_american 150 = 100 / (((150 : ℤ) : ℚ) + 100) ∧
     american_to_prob (decimalString 150) = some (100 / (((150 : ℤ) : ℚ) + 100)) ∧
     american_to_implied (decimalString 150) = some (100 / (((150 : ℤ) : ℚ) + 100))) ∧
    (prob_from_american (-150) =
        (-((-150 : ℤ) : ℚ)) / ((-((-150 : ℤ) : ℚ)) + 100) ∧
     american_to_prob (decimalString (-150)) =
        some ((-((-150 : ℤ) : ℚ)) / ((-((-150 : ℤ) : ℚ)) + 100)) ∧
     american_to_implied (decimalString (-150)) =
        some ((-((-150 : ℤ) : ℚ)) / ((-((-150 : ℤ) : ℚ)) + 100))) :=
  ⟨Or.inl (by norm_num), Or.inr (by norm_num), by norm_num, by norm_num,
    (C10_converters_agree 150 (Or.inl (by norm_num))).1 (by norm_num),
    (C10_converters_agree (-150) (Or.inr (by norm_num))).2 (by norm_num)⟩

end FootballWatcher
